import Mathlib

/-!
Verification of the spatial resampling + pointwise correlation pipeline of the
remote-sensing workshop notebook `5_spatiotemporal_correlation_analysis.ipynb`.

The notebook's two cores are embedded shallowly:

* the Grid Aligner — the `fine_moisture` loop: for each time step, the coarse
  `soil_moisture` slice has its NaNs replaced by zero (`np.nan_to_num`), is
  zoomed by `scipy.ndimage.zoom` with per-axis factors
  `len(bare_soil.axis)/len(soil_moisture.axis)` at `SPLINE_ORDER`, negative
  results are clamped to zero, and NaN masks from both the target-resolution
  `bare_soil` slice and the order-0 zoom of the source NaN mask are re-applied;

* the Correlation Mapper — the double loop over `fine_moisture.latitude` and
  `fine_moisture.longitude` that records `pearsonr` of the two cell series,
  appends `spearmanr` of the same series guarded by `try/except ValueError`
  (recording `(nan, nan)` on failure), converts the nested lists to an array,
  and assigns the four columns into the pre-allocated `corr` dataset.

Modelling conventions: a cell value is `Option ℚ`, with `none` standing for
the IEEE NaN sentinel of the arrays (NaN propagates through the statistics and
marks missing data).  Grids are total functions on ℕ indices with the axis
lengths passed explicitly; statements quantify over in-range indices.  The
real-valued correlation statistics live in ℝ, with the rational moment sums
kept computable.
-/

namespace RSW

/-- A cell value of one of the arrays: `none` models the NaN sentinel used for
missing data, `some q` a finite floating-point value. -/
abbrev RV := Option ℚ

/-- `np.nan_to_num` applied to a 2-d slice: missing values become `0`. -/
def nanToNum (g : ℕ → ℕ → RV) : ℕ → ℕ → ℚ :=
  fun i j => (g i j).getD 0

/-- The output length `scipy.ndimage.zoom` derives from an input length and a
zoom factor: `int(round(len * factor))`.  (Rounding of the exact rational;
ties cannot occur at the call sites, where the factor is a ratio of lengths.) -/
def zoomOutSize (n : ℕ) (z : ℚ) : ℕ :=
  (⌊(n : ℚ) * z + 1 / 2⌋).toNat

/-- The source index an order-0 (nearest-neighbour) `scipy.ndimage.zoom` reads
for output index `j` on an axis of input length `nIn` and output length `nOut`:
the interpolation coordinate is `j * (nIn - 1) / (nOut - 1)` and the order-0
spline takes the nearest sample, `⌊coord + 1/2⌋`.  The `min` clip is a
totality guard; for `j < nOut` the coordinate already lies inside the axis. -/
def zoomIdx (nIn nOut : ℕ) (j : ℕ) : ℕ :=
  if nOut ≤ 1 then 0
  else min (nIn - 1) (⌊(j : ℚ) * ((nIn : ℚ) - 1) / ((nOut : ℚ) - 1) + 1 / 2⌋).toNat

/-- Order-0 zoom of a 2-d field with explicit input and output axis lengths,
as used for the NaN-mask line `ndzoom(np.isnan(data), zoom=ZOOM_FACTOR, order=0)`. -/
def zoom0 {α : Type} (rs cs rt ct : ℕ) (g : ℕ → ℕ → α) : ℕ → ℕ → α :=
  fun i j => g (zoomIdx rs rt i) (zoomIdx cs ct j)

/-- `scipy.ndimage.zoom` at order 0 as a value interpolator: the output shape
is derived from the zoom factors, and each output cell reads the nearest
source cell.  This instantiates the interpolation parameter of the aligner
for the nearest-neighbour scenarios. -/
def ndzoom0 (rs cs : ℕ) : ℕ → ℚ → ℚ → (ℕ → ℕ → ℚ) → ℕ → ℕ → ℚ :=
  fun _order zLat zLon g i j =>
    g (zoomIdx rs (zoomOutSize rs zLat) i) (zoomIdx cs (zoomOutSize cs zLon) j)

/-- The interpolation step of the aligner for one time slice:
`output = ndzoom(np.nan_to_num(data), zoom=ZOOM_FACTOR, order=SPLINE_ORDER)`,
with `ZOOM_FACTOR = (len(bare_soil.latitude)/len(soil_moisture.latitude),
len(bare_soil.longitude)/len(soil_moisture.longitude))`.  The interpolation
routine itself (`scipy.ndimage.zoom` at an arbitrary spline order) is an
external library primitive and is a parameter `interp`. -/
def alignInterp (interp : ℕ → ℚ → ℚ → (ℕ → ℕ → ℚ) → ℕ → ℕ → ℚ)
    (order rs cs rt ct : ℕ) (src : ℕ → ℕ → RV) : ℕ → ℕ → ℚ :=
  interp order ((rt : ℚ) / (rs : ℚ)) ((ct : ℚ) / (cs : ℚ)) (nanToNum src)

/-- One time slice of the `fine_moisture` loop after the interpolation:
`fine[:] = output`, then `fine.values[fine.values < 0] = 0` (the clamp, here
`max _ 0`), then the two NaN re-masking assignments — NaN wherever the
target-resolution reference slice is NaN, and NaN wherever the order-0 zoom
of the source NaN mask is set. -/
def alignSlice (interp : ℕ → ℚ → ℚ → (ℕ → ℕ → ℚ) → ℕ → ℕ → ℚ)
    (order rs cs rt ct : ℕ) (src ref : ℕ → ℕ → RV) : ℕ → ℕ → RV :=
  fun i j =>
    if (ref i j).isNone then none
    else if zoom0 rs cs rt ct (fun a b => (src a b).isNone) i j then none
    else some (max (alignInterp interp order rs cs rt ct src i j) 0)

/-- The whole Grid Aligner: the loop `for timestamp in fine_moisture.time`
applies `alignSlice` to every time step independently, pairing the source
slice with the reference (`bare_soil`) slice of the same timestamp. -/
def alignAll (interp : ℕ → ℚ → ℚ → (ℕ → ℕ → ℚ) → ℕ → ℕ → ℚ)
    (order rs cs rt ct : ℕ) (src ref : ℕ → ℕ → ℕ → RV) : ℕ → ℕ → ℕ → RV :=
  fun t => alignSlice interp order rs cs rt ct (src t) (ref t)

/-- Concrete source array for the counterexamples: a single missing cell. -/
def srcGap : ℕ → ℕ → ℕ → RV := fun _ _ _ => none

/-- Concrete reference array with no missing cell. -/
def refFull : ℕ → ℕ → ℕ → RV := fun _ _ _ => some 0

/-- Concrete array holding a single negative value, for the idempotence
counterexample (the unconditional clamp rewrites it). -/
def negArr : ℕ → ℕ → ℕ → RV := fun _ _ _ => some (-1)

/-- Concrete nonnegative source array for witnesses. -/
def srcW : ℕ → ℕ → ℕ → RV := fun t a b => some ((t : ℚ) + 2 * a + b)

/-- Concrete reference array for witnesses (all cells valid). -/
def refW : ℕ → ℕ → ℕ → RV := fun _ _ _ => some 1

/-- Mean of a series, `x.mean()`.  (For the empty list the rational division
by zero yields `0`; all call sites have nonempty series.) -/
def mean (x : List ℚ) : ℚ := x.sum / x.length

/-- The centred product sum `Σ (xᵢ - x̄)(yᵢ - ȳ)` shared by the numerator and
the two variance factors of `scipy.stats.pearsonr`. -/
def covSum (x y : List ℚ) : ℚ :=
  (List.zipWith (fun a b => (a - mean x) * (b - mean y)) x y).sum

/-- The rank `scipy.stats.rankdata` assigns to value `v` within series `x`:
one-based, with tied values sharing the average of their positions. -/
def rankOf (x : List ℚ) (v : ℚ) : ℚ :=
  (x.countP (fun e => decide (e < v)) : ℚ) +
    ((x.countP (fun e => decide (e = v)) : ℚ) + 1) / 2

/-- `scipy.stats.rankdata` on a whole series. -/
def rankdata (x : List ℚ) : List ℚ := x.map (rankOf x)

/-- Extract the finite values of a series, or `none` if the series contains a
NaN — the float statistics propagate any NaN input to NaN outputs. -/
def allSome : List RV → Option (List ℚ)
  | [] => some []
  | none :: _ => none
  | some v :: rest => (allSome rest).map (fun l => v :: l)

/-- `r = max(min(r, 1.0), -1.0)`: the correlation coefficient clip performed
by `scipy.stats.pearsonr` before the significance computation. -/
noncomputable def clip (v : ℝ) : ℝ := max (min v 1) (-1)

/-- The Pearson correlation coefficient of two series of finite values:
`Σ xm·ym / sqrt(Σ xm² · Σ ym²)` (then clipped), as computed by
`scipy.stats.pearsonr`. -/
noncomputable def pearsonStat (x y : List ℚ) : ℝ :=
  clip (((covSum x y : ℚ) : ℝ) /
    Real.sqrt (((covSum x x : ℚ) : ℝ) * ((covSum y y : ℚ) : ℝ)))

/-- Upper tail mass of the null distribution of the Pearson coefficient for
sample size `n` (the symmetric beta distribution on [-1, 1] used by
`scipy.stats.pearsonr`), normalised by the full mass. -/
noncomputable def betaTail (n : ℕ) (s : ℝ) : ℝ :=
  (∫ u in s..1, (1 - u ^ 2) ^ ((n : ℝ) / 2 - 2)) /
    (∫ u in (-1 : ℝ)..1, (1 - u ^ 2) ^ ((n : ℝ) / 2 - 2))

/-- The two-sided Pearson p-value for sample size `n` and coefficient `r`:
`scipy.stats.pearsonr` returns exactly `0.0` when `abs(r) == 1.0` and twice
the upper beta tail otherwise. -/
noncomputable def pearsonProb (n : ℕ) (r : ℝ) : ℝ :=
  if |r| = 1 then 0 else 2 * betaTail n |r|

/-- `scipy.stats.pearsonr` on two cell series, as called by the per-cell loop
(the two series always have the same length there, the shared time length):
any NaN input propagates to `(nan, nan)`; a zero variance factor makes the
float ratio `0/0 = nan`, hence also `(nan, nan)`; otherwise the clipped
coefficient and its p-value.  `none` models NaN.  The function is total —
it records NaNs instead of raising. -/
noncomputable def pearsonr (x y : List RV) : Option ℝ × Option ℝ :=
  match allSome x, allSome y with
  | some xv, some yv =>
    if covSum xv xv * covSum yv yv = 0 then (none, none)
    else (some (pearsonStat xv yv),
      some (pearsonProb x.length (pearsonStat xv yv)))
  | _, _ => (none, none)

/-- The Spearman coefficient: each series replaced by its rank ordering, then
the Pearson formula applied to the ranks. -/
noncomputable def spearmanStat (x y : List ℚ) : ℝ :=
  pearsonStat (rankdata x) (rankdata y)

/-- Upper tail mass of a Student t distribution with `df` degrees of freedom,
normalised by the full mass — the significance reference used by
`scipy.stats.spearmanr`. -/
noncomputable def tTail (df : ℕ) (s : ℝ) : ℝ :=
  (∫ u in Set.Ioi s, (1 + u ^ 2 / (df : ℝ)) ^ (-((df : ℝ) + 1) / 2)) /
    (∫ u : ℝ, (1 + u ^ 2 / (df : ℝ)) ^ (-((df : ℝ) + 1) / 2))

/-- The two-sided Spearman p-value via the t statistic
`rs * sqrt((n-2)/((rs+1)(1-rs)))`.  At `|rs| = 1` the float denominator is
zero and the statistic overflows to infinity, whose upper tail is `0`; that
limit is modelled by the explicit case. -/
noncomputable def spearmanProb (n : ℕ) (rs : ℝ) : ℝ :=
  if |rs| = 1 then 0
  else 2 * tTail (n - 2) |rs * Real.sqrt (((n : ℝ) - 2) / ((rs + 1) * (1 - rs)))|

/-- Modelled from the spec: the failure condition of the external
rank-correlation routine (`scipy.stats.spearmanr`, whose source is outside
this repository) — the notebook guards the call with `try/except ValueError`
and its comment says "Spearman's R can fail for some values"; per the spec
the computation fails on degenerate input, e.g. a constant series or too few
points.  NaN-containing input instead propagates to `(nan, nan)` like the
Pearson routine. -/
noncomputable def spearmanrE (x y : List RV) : Except Unit (Option ℝ × Option ℝ) :=
  match allSome x, allSome y with
  | some xv, some yv =>
    if x.length < 2 ∨ covSum (rankdata xv) (rankdata xv) = 0 ∨
        covSum (rankdata yv) (rankdata yv) = 0 then Except.error ()
    else Except.ok (some (spearmanStat xv yv),
      some (spearmanProb x.length (spearmanStat xv yv)))
  | _, _ => Except.ok (none, none)

/-- The four per-cell statistics recorded by the mapper. -/
structure CellStats where
  pearson_r : Option ℝ
  pearson_p : Option ℝ
  spearman_r : Option ℝ
  spearman_p : Option ℝ

/-- The body of the per-cell loop: `val = pearsonr(...)`, then
`val += spearmanr(...)` guarded by `try/except ValueError` which appends
`(np.nan, np.nan)` on failure.  Total: no error escapes the loop body. -/
noncomputable def cellStat (a b : List RV) : CellStats :=
  let p := pearsonr a b
  let s := match spearmanrE a b with
    | Except.ok v => v
    | Except.error _ => (none, none)
  ⟨p.1, p.2, s.1, s.2⟩

/-- The cell time series `A[:, lat, lon]` of a (time, lat, lon) array with
time length `T`. -/
def seriesAt (T : ℕ) (A : ℕ → ℕ → ℕ → RV) (i j : ℕ) : List RV :=
  (List.range T).map (fun t => A t i j)

/-- The nested result lists of the double loop over `fine_moisture.latitude`
then `fine_moisture.longitude` (lengths `nLat`, `nLon` — the resampled
array's coordinates, identical to the target's because `fine_moisture` is a
deep copy of `bare_soil`), i.e. `latout` / `arr = np.array(latout)`. -/
noncomputable def corrArr (T nLat nLon : ℕ) (A B : ℕ → ℕ → ℕ → RV) :
    List (List CellStats) :=
  (List.range nLat).map (fun i =>
    (List.range nLon).map (fun j =>
      cellStat (seriesAt T A i j) (seriesAt T B i j)))

/-- The four fields of the `corr` dataset, each a (lat, lon) buffer. -/
structure CorrDS where
  pearson_r : ℕ → ℕ → Option ℝ
  pearson_p : ℕ → ℕ → Option ℝ
  spearman_r : ℕ → ℕ → Option ℝ
  spearman_p : ℕ → ℕ → Option ℝ

/-- Allocation of the `corr` dataset with `np.ndarray` buffers: the initial
contents are arbitrary (uninitialised memory), supplied here as parameters. -/
def corrAlloc (f1 f2 f3 f4 : ℕ → ℕ → Option ℝ) : CorrDS := ⟨f1, f2, f3, f4⟩

/-- Reading entry `(i, j)` of the rectangular `arr = np.array(latout)`
(defaults are irrelevant for in-range indices). -/
noncomputable def cellAt (T nLat nLon : ℕ) (A B : ℕ → ℕ → ℕ → RV) (i j : ℕ) :
    CellStats :=
  ((corrArr T nLat nLon A B).getD i []).getD j ⟨none, none, none, none⟩

/-- The four final assignments `corr.pearson_r[:] = arr[..., 0]` etc.: every
in-range cell of each field is overwritten with the loop's result for that
cell; only out-of-range entries of the model's total functions keep the
allocation's contents. -/
noncomputable def corrAssign (T nLat nLon : ℕ) (A B : ℕ → ℕ → ℕ → RV)
    (ds : CorrDS) : CorrDS :=
  { pearson_r := fun i j => if i < nLat ∧ j < nLon
      then (cellAt T nLat nLon A B i j).pearson_r else ds.pearson_r i j
    pearson_p := fun i j => if i < nLat ∧ j < nLon
      then (cellAt T nLat nLon A B i j).pearson_p else ds.pearson_p i j
    spearman_r := fun i j => if i < nLat ∧ j < nLon
      then (cellAt T nLat nLon A B i j).spearman_r else ds.spearman_r i j
    spearman_p := fun i j => if i < nLat ∧ j < nLon
      then (cellAt T nLat nLon A B i j).spearman_p else ds.spearman_p i j }

/-- Spec-side definition, following the spec's words for comparison with the
code: the paired observations at matching time indices where both series are
non-missing. -/
def validPairs (x y : List RV) : List (ℚ × ℚ) :=
  (List.zip x y).filterMap (fun p =>
    match p.1, p.2 with
    | some a, some b => some (a, b)
    | _, _ => none)

/-- The increasing five-step series of the end-to-end scenario. -/
def incList : List ℚ := [1, 2, 3, 4, 5]

/-- The decreasing five-step series of the end-to-end scenario. -/
def decList : List ℚ := [5, 4, 3, 2, 1]

/-- A series with one missing observation, for the filtering counterexample. -/
def gapSeries : List RV := [some 1, some 2, some 3, none]

/-- A fully observed series paired with `gapSeries`. -/
def fullSeries : List RV := [some 1, some 2, some 3, some 4]

/-- A constant (zero-variance) cell series. -/
def constSeries : List RV := [some 1, some 1]

/-- A non-degenerate cell series of the same length as `constSeries`. -/
def stepSeries : List RV := [some 0, some 1]

/-- A concrete array differing from `refW` only outside latitude index 0. -/
def altA : ℕ → ℕ → ℕ → RV := fun _ a _ => if a = 0 then some 1 else some 5

theorem zoomOutSize_ratio {s : ℕ} (t : ℕ) (hs : 0 < s) :
    zoomOutSize s ((t : ℚ) / (s : ℚ)) = t := by
  have hs' : (s : ℚ) ≠ 0 := by exact_mod_cast hs.ne'
  have : (s : ℚ) * ((t : ℚ) / (s : ℚ)) = (t : ℚ) := by field_simp
  rw [zoomOutSize, this]
  have hf : ⌊(t : ℚ) + 1 / 2⌋ = (t : ℤ) := by
    rw [Int.floor_eq_iff]
    constructor
    · push_cast; linarith
    · push_cast; linarith
  rw [hf]
  exact Int.toNat_natCast t

theorem zoomIdx_self {n : ℕ} (i : ℕ) (hi : i < n) : zoomIdx n n i = i := by
  rw [zoomIdx]
  rcases Nat.lt_or_ge n 2 with h2 | h2
  · have : n = 1 := by omega
    subst this
    simp [show i = 0 by omega]
  · have hn1 : ¬ n ≤ 1 := by omega
    rw [if_neg hn1]
    have hne : ((n : ℚ) - 1) ≠ 0 := by
      have : (2 : ℚ) ≤ (n : ℚ) := by exact_mod_cast h2
      linarith
    have hdiv : (i : ℚ) * ((n : ℚ) - 1) / ((n : ℚ) - 1) = (i : ℚ) := by
      field_simp
    rw [hdiv]
    have hf : ⌊(i : ℚ) + 1 / 2⌋ = (i : ℤ) := by
      rw [Int.floor_eq_iff]
      constructor
      · push_cast; linarith
      · push_cast; linarith
    rw [hf, Int.toNat_natCast]
    omega

theorem zoomIdx_two_four (i : ℕ) (hi : i < 4) : zoomIdx 2 4 i = i / 2 := by
  interval_cases i <;> norm_num [zoomIdx]

/-- C2 (amended): after the aligner runs, an output cell is missing iff it is
missing in the target-resolution reference slice at that time or the order-0
zoom of the source slice's missing mask marks it; hence the output's missing
set contains the reference's missing set and the zoomed source gaps.  (The
output and reference missing sets need not be *equal*: the reference array is
never modified, so source gaps absent from it stay asymmetric — see the
counterexample.) -/
theorem C2_missing_mask_union
    (interp : ℕ → ℚ → ℚ → (ℕ → ℕ → ℚ) → ℕ → ℕ → ℚ)
    (order rs cs rt ct : ℕ) (src ref : ℕ → ℕ → ℕ → RV) (t i j : ℕ) :
    (alignAll interp order rs cs rt ct src ref t i j = none ↔
      ref t i j = none ∨
        zoom0 rs cs rt ct (fun a b => (src t a b).isNone) i j = true) ∧
    (ref t i j = none → alignAll interp order rs cs rt ct src ref t i j = none) ∧
    (zoom0 rs cs rt ct (fun a b => (src t a b).isNone) i j = true →
      alignAll interp order rs cs rt ct src ref t i j = none) := by
  refine ⟨?_, ?_, ?_⟩
  · rw [alignAll, alignSlice]
    rcases href : ref t i j with _ | rv
    · simp
    · rcases hmask : zoom0 rs cs rt ct (fun a b => (src t a b).isNone) i j with _ | _ <;>
        simp [hmask]
  · intro h
    rw [alignAll, alignSlice, h]
    simp
  · intro h
    rw [alignAll, alignSlice, h]
    simp

/-- C2 witness: a concrete run of the aligner where the reference cell is
valid but the source gap makes the output cell missing. -/
theorem C2_missing_mask_union_witness :
    alignAll (ndzoom0 1 1) 3 1 1 1 1 srcGap refFull 0 0 0 = none :=
  (C2_missing_mask_union (ndzoom0 1 1) 3 1 1 1 1 srcGap refFull 0 0 0).2.2 rfl

/-- C2 counterexample: the claim that output and reference end with exactly
the same missing-cell set fails — here the output cell is missing (source
gap) while the same reference cell is not. -/
theorem C2_missing_set_exact_counterexample :
    alignAll (ndzoom0 1 1) 3 1 1 1 1 srcGap refFull 0 0 0 = none ∧
    refFull 0 0 0 = some 0 := by
  constructor
  · rw [alignAll, alignSlice]
    simp [zoom0, srcGap, refFull]
  · rfl

/-- C4: the per-time-step interpolation step is exactly `interp` of the
requested order applied to the zero-filled source slice, with per-axis zoom
factors target-length / source-length; those factors make the library derive
exactly the target axis lengths, and on unmasked cells with nonnegative
interpolation result the aligner's output is the interpolated value itself. -/
theorem C4_fill_zoom_structure
    (interp : ℕ → ℚ → ℚ → (ℕ → ℕ → ℚ) → ℕ → ℕ → ℚ)
    (order rs cs rt ct : ℕ) (src ref : ℕ → ℕ → ℕ → RV)
    (hrs : 0 < rs) (hcs : 0 < cs) :
    zoomOutSize rs ((rt : ℚ) / (rs : ℚ)) = rt ∧
    zoomOutSize cs ((ct : ℚ) / (cs : ℚ)) = ct ∧
    (∀ t, alignInterp interp order rs cs rt ct (src t) =
      interp order ((rt : ℚ) / (rs : ℚ)) ((ct : ℚ) / (cs : ℚ))
        (fun a b => (src t a b).getD 0)) ∧
    (∀ t i j, (ref t i j).isNone = false →
      zoom0 rs cs rt ct (fun a b => (src t a b).isNone) i j = false →
      0 ≤ alignInterp interp order rs cs rt ct (src t) i j →
      alignAll interp order rs cs rt ct src ref t i j =
        some (alignInterp interp order rs cs rt ct (src t) i j)) := by
  refine ⟨zoomOutSize_ratio rt hrs, zoomOutSize_ratio ct hcs, fun t => rfl, ?_⟩
  intro t i j href hmask hnn
  rw [alignAll, alignSlice, href, hmask]
  simp [max_eq_left hnn]

/-- C4 witness: the structure theorem applied to a concrete order-0 run on a
2×2 → 4×4 grid pair. -/
theorem C4_fill_zoom_structure_witness :
    zoomOutSize 2 ((4 : ℚ) / (2 : ℚ)) = 4 ∧
    alignAll (ndzoom0 2 2) 0 2 2 4 4 srcW refW 0 0 0 =
      some (alignInterp (ndzoom0 2 2) 0 2 2 4 4 (srcW 0) 0 0) := by
  have h := C4_fill_zoom_structure (ndzoom0 2 2) 0 2 2 4 4 srcW refW
    (by norm_num) (by norm_num)
  refine ⟨h.1, h.2.2.2 0 0 0 rfl rfl ?_⟩
  show (0 : ℚ) ≤ nanToNum (srcW 0) _ _
  rw [nanToNum, srcW]
  show (0 : ℚ) ≤ (Option.some _).getD 0
  rw [Option.getD_some]
  positivity

/-- C5: with the clamp applied (the notebook applies it unconditionally),
every non-missing cell of the resampled output is nonnegative, and equals the
interpolated value clamped at zero — negatives are set to exactly zero before
the missing mask is re-applied. -/
theorem C5_clamp_nonneg
    (interp : ℕ → ℚ → ℚ → (ℕ → ℕ → ℚ) → ℕ → ℕ → ℚ)
    (order rs cs rt ct : ℕ) (src ref : ℕ → ℕ → ℕ → RV) (t i j : ℕ) (v : ℚ)
    (h : alignAll interp order rs cs rt ct src ref t i j = some v) :
    0 ≤ v ∧ v = max (alignInterp interp order rs cs rt ct (src t) i j) 0 := by
  rw [alignAll, alignSlice] at h
  by_cases h1 : (ref t i j).isNone
  · rw [if_pos h1] at h; cases h
  · rw [if_neg h1] at h
    by_cases h2 : zoom0 rs cs rt ct (fun a b => (src t a b).isNone) i j = true
    · rw [if_pos h2] at h; cases h
    · rw [if_neg h2] at h
      have hv : v = max (alignInterp interp order rs cs rt ct (src t) i j) 0 :=
        (Option.some_inj.mp h).symm
      exact ⟨hv ▸ le_max_right _ _, hv⟩

/-- C5 witness: a concrete non-missing output cell, shown nonnegative by the
clamp theorem. -/
theorem C5_clamp_nonneg_witness :
    (0 : ℚ) ≤ 1 ∧
    (1 : ℚ) = max (alignInterp (ndzoom0 1 1) 0 1 1 1 1 (refW 0) 0 0) 0 := by
  refine C5_clamp_nonneg (ndzoom0 1 1) 0 1 1 1 1 refW refW 0 0 0 1 ?_
  rw [alignAll, alignSlice]
  simp [zoom0, refW, alignInterp, ndzoom0, nanToNum]

/-- C6 (amended): resampling an array onto its own grid (zoom factor 1 on
every axis, order 0) with itself as reference preserves the missing mask
exactly and returns every non-missing *nonnegative* value unchanged; negative
values are rewritten to zero by the unconditional clamp (see the
counterexample), so value idempotence holds only on nonnegative data. -/
theorem C6_self_resample_clamped (rs cs : ℕ) (g : ℕ → ℕ → ℕ → RV) (t i j : ℕ)
    (hi : i < rs) (hj : j < cs) :
    (alignAll (ndzoom0 rs cs) 0 rs cs rs cs g g t i j = none ↔ g t i j = none) ∧
    ∀ v : ℚ, 0 ≤ v → g t i j = some v →
      alignAll (ndzoom0 rs cs) 0 rs cs rs cs g g t i j = some v := by
  have hrs : 0 < rs := by omega
  have hcs : 0 < cs := by omega
  have hzi : zoomIdx rs rs i = i := zoomIdx_self i hi
  have hzj : zoomIdx cs cs j = j := zoomIdx_self j hj
  have hinterp : alignInterp (ndzoom0 rs cs) 0 rs cs rs cs (g t) i j =
      (g t i j).getD 0 := by
    rw [alignInterp, ndzoom0, zoomOutSize_ratio rs hrs, zoomOutSize_ratio cs hcs,
      hzi, hzj, nanToNum]
  constructor
  · rw [alignAll, alignSlice, zoom0, hzi, hzj]
    rcases hg : g t i j with _ | v <;> simp [hg]
  · intro v hv hg
    rw [alignAll, alignSlice, zoom0, hzi, hzj, hg]
    simp [hinterp, hg, max_eq_left hv]

/-- C6 witness: the amended idempotence at a concrete nonnegative array. -/
theorem C6_self_resample_clamped_witness :
    alignAll (ndzoom0 1 1) 0 1 1 1 1 refW refW 0 0 0 = some 1 :=
  (C6_self_resample_clamped 1 1 refW 0 0 0 (by norm_num) (by norm_num)).2 1
    (by norm_num) rfl

/-- C6 counterexample: self-resampling is not value-idempotent — a cell
holding `-1` comes back as `0` because the clamp runs unconditionally. -/
theorem C6_self_resample_counterexample :
    alignAll (ndzoom0 1 1) 0 1 1 1 1 negArr negArr 0 0 0 = some 0 ∧
    negArr 0 0 0 = some (-1) := by
  constructor
  · rw [alignAll, alignSlice]
    norm_num [zoom0, negArr, alignInterp, ndzoom0, nanToNum]
  · rfl

/-- C7: upsampling a (12, 2, 2) source with nearest-neighbour order onto a
(4, 4) target (zoom factor 2 per axis, so the derived output length is 4)
makes every 2×2 output block equal the corresponding single source pixel,
for every one of the 12 time steps, provided the inputs carry no missing or
negative values. -/
theorem C7_block_upsample (src ref : ℕ → ℕ → ℕ → RV)
    (hsrc : ∀ t < 12, ∀ a < 2, ∀ b < 2,
      src t a b ≠ none ∧ 0 ≤ (src t a b).getD 0)
    (href : ∀ t < 12, ∀ i < 4, ∀ j < 4, ref t i j ≠ none) :
    zoomOutSize 2 ((4 : ℚ) / (2 : ℚ)) = 4 ∧
    ∀ t < 12, ∀ i < 4, ∀ j < 4,
      alignAll (ndzoom0 2 2) 0 2 2 4 4 src ref t i j = src t (i / 2) (j / 2) := by
  refine ⟨zoomOutSize_ratio 4 (by norm_num), ?_⟩
  intro t ht i hi j hj
  have hi2 : i / 2 < 2 := by omega
  have hj2 : j / 2 < 2 := by omega
  obtain ⟨hne, hnn⟩ := hsrc t ht (i / 2) hi2 (j / 2) hj2
  obtain ⟨v, hv⟩ := Option.ne_none_iff_exists'.mp hne
  have hvnn : (0 : ℚ) ≤ v := by rw [hv] at hnn; simpa using hnn
  have hzi : zoomIdx 2 4 i = i / 2 := zoomIdx_two_four i hi
  have hzj : zoomIdx 2 4 j = j / 2 := zoomIdx_two_four j hj
  have hinterp : alignInterp (ndzoom0 2 2) 0 2 2 4 4 (src t) i j = v := by
    rw [alignInterp, ndzoom0, zoomOutSize_ratio 4 (by norm_num : (0:ℕ) < 2),
      hzi, hzj]
    simp [nanToNum, hv]
  have hrne := href t ht i hi j hj
  have h1 : ¬ ((ref t i j).isNone = true) := fun h =>
    hrne (Option.isNone_iff_eq_none.mp h)
  rw [alignAll, alignSlice, zoom0, hzi, hzj, hv, if_neg h1]
  simp [hinterp, max_eq_left hvnn]

/-- C7 witness: the block-upsampling theorem at a concrete nonnegative
source and fully valid reference. -/
theorem C7_block_upsample_witness :
    alignAll (ndzoom0 2 2) 0 2 2 4 4 srcW refW 2 3 1 = srcW 2 1 0 := by
  have h := C7_block_upsample srcW refW ?_ ?_
  · exact h.2 2 (by norm_num) 3 (by norm_num) 1 (by norm_num)
  · intro t _ a _ b _
    refine ⟨by simp [srcW], ?_⟩
    rw [srcW]
    show (0 : ℚ) ≤ (Option.some _).getD 0
    rw [Option.getD_some]
    positivity
  · intro t _ i _ j _
    simp [refW]

theorem allSome_map_some (l : List ℚ) : allSome (l.map some) = some l := by
  induction l with
  | nil => rfl
  | cons p t ih => simp [allSome, ih]

theorem allSome_of_mem_none (l : List RV) (h : none ∈ l) : allSome l = none := by
  induction l with
  | nil => cases h
  | cons p t ih =>
    rcases List.mem_cons.mp h with rfl | h'
    · rfl
    · cases p with
      | none => rfl
      | some v => simp [allSome, ih h']

theorem allSome_cons_some (v : ℚ) (l : List RV) (xv : List ℚ)
    (h : allSome (some v :: l) = some xv) :
    ∃ t, allSome l = some t ∧ xv = v :: t := by
  simp only [allSome] at h
  cases ht : allSome l with
  | none => rw [ht] at h; cases h
  | some t =>
    rw [ht] at h
    exact ⟨t, rfl, (Option.some_inj.mp h).symm⟩

theorem allSome_replicate (n : ℕ) (v : ℚ) :
    allSome (List.replicate n (some v)) = some (List.replicate n v) := by
  induction n with
  | zero => rfl
  | succ m ih => simp [List.replicate_succ, allSome, ih]

theorem zipWith_same {α β : Type} (f : α → α → β) (l : List α) :
    List.zipWith f l l = l.map (fun a => f a a) := by
  induction l with
  | nil => rfl
  | cons p t ih => simp [ih]

theorem covSum_self_eq (x : List ℚ) :
    covSum x x = (x.map (fun a => (a - mean x) * (a - mean x))).sum := by
  rw [covSum]
  simp only [zipWith_same]

theorem covSum_self_nonneg (x : List ℚ) : 0 ≤ covSum x x := by
  rw [covSum_self_eq]
  apply List.sum_nonneg
  intro q hq
  obtain ⟨c, _, rfl⟩ := List.mem_map.mp hq
  exact mul_self_nonneg _

theorem sum_zero_mem (l : List ℚ) (h : ∀ a ∈ l, 0 ≤ a) (hs : l.sum = 0) :
    ∀ a ∈ l, a = 0 := by
  induction l with
  | nil => intro a ha; cases ha
  | cons p t ih =>
    intro a ha
    have hp : 0 ≤ p := h p (List.mem_cons_self p t)
    have ht : 0 ≤ t.sum :=
      List.sum_nonneg (fun c hc => h c (List.mem_cons_of_mem p hc))
    rw [List.sum_cons] at hs
    rcases List.mem_cons.mp ha with rfl | ha'
    · linarith
    · exact ih (fun c hc => h c (List.mem_cons_of_mem p hc)) (by linarith) a ha'

theorem covSum_self_pos (x : List ℚ) (a b : ℚ) (ha : a ∈ x) (hb : b ∈ x)
    (hab : a ≠ b) : 0 < covSum x x := by
  rcases lt_or_eq_of_le (covSum_self_nonneg x) with h | h
  · exact h
  · exfalso
    have hzero : ∀ q ∈ x.map (fun c => (c - mean x) * (c - mean x)), q = 0 := by
      apply sum_zero_mem
      · intro q hq
        obtain ⟨c, _, rfl⟩ := List.mem_map.mp hq
        exact mul_self_nonneg _
      · rw [← covSum_self_eq]
        exact h.symm
    have haz : a = mean x := by
      have h1 := hzero _ (List.mem_map_of_mem _ ha)
      have h2 := mul_self_eq_zero.mp h1
      linarith
    have hbz : b = mean x := by
      have h1 := hzero _ (List.mem_map_of_mem _ hb)
      have h2 := mul_self_eq_zero.mp h1
      linarith
    exact hab (haz.trans hbz.symm)

theorem covSum_replicate (n : ℕ) (v : ℚ) :
    covSum (List.replicate n v) (List.replicate n v) = 0 := by
  rcases Nat.eq_zero_or_pos n with rfl | hn
  · rfl
  · have hm : mean (List.replicate n v) = v := by
      rw [mean, List.sum_replicate, List.length_replicate, nsmul_eq_mul]
      have hne : (n : ℚ) ≠ 0 := Nat.cast_ne_zero.mpr hn.ne'
      field_simp
    rw [covSum_self_eq, hm, List.map_replicate]
    simp

theorem sum_map_two (x : List ℚ) :
    (x.map (fun a => 2 * a + 1)).sum = 2 * x.sum + x.length := by
  induction x with
  | nil => simp
  | cons p t ih =>
    simp only [List.map_cons, List.sum_cons, ih, List.length_cons]
    push_cast
    ring

theorem mean_map_two (x : List ℚ) (hx : x ≠ []) :
    mean (x.map (fun a => 2 * a + 1)) = 2 * mean x + 1 := by
  have hn : (x.length : ℚ) ≠ 0 :=
    Nat.cast_ne_zero.mpr (List.length_pos.mpr hx).ne'
  rw [mean, sum_map_two, List.length_map, mean]
  field_simp

theorem covSum_map_two (x : List ℚ) (hx : x ≠ []) :
    covSum x (x.map (fun a => 2 * a + 1)) = 2 * covSum x x ∧
    covSum (x.map (fun a => 2 * a + 1)) (x.map (fun a => 2 * a + 1)) =
      4 * covSum x x := by
  have hm := mean_map_two x hx
  constructor
  · rw [covSum, List.zipWith_map_right]
    simp only [zipWith_same, hm]
    rw [covSum_self_eq]
    rw [show (fun a : ℚ => (a - mean x) * (2 * a + 1 - (2 * mean x + 1))) =
        (fun a : ℚ => 2 * ((a - mean x) * (a - mean x))) from
      funext fun a => by ring]
    rw [List.sum_map_mul_left]
  · rw [covSum, List.zipWith_map_right, List.zipWith_map_left]
    simp only [zipWith_same, hm]
    rw [covSum_self_eq]
    rw [show (fun a : ℚ => (2 * a + 1 - (2 * mean x + 1)) *
          (2 * a + 1 - (2 * mean x + 1))) =
        (fun a : ℚ => 4 * ((a - mean x) * (a - mean x))) from
      funext fun a => by ring]
    rw [List.sum_map_mul_left]

theorem pearsonStat_self (x : List ℚ) (hV : 0 < covSum x x) :
    pearsonStat x x = 1 := by
  rw [pearsonStat]
  have h0 : (0 : ℝ) ≤ ((covSum x x : ℚ) : ℝ) := by exact_mod_cast hV.le
  have hne : ((covSum x x : ℚ) : ℝ) ≠ 0 := by exact_mod_cast hV.ne'
  rw [Real.sqrt_mul_self h0, div_self hne, clip]
  norm_num

theorem pearsonStat_map_two (x : List ℚ) (hx : x ≠ []) (hV : 0 < covSum x x) :
    pearsonStat x (x.map (fun a => 2 * a + 1)) = 1 := by
  obtain ⟨h1, h2⟩ := covSum_map_two x hx
  rw [pearsonStat, h1, h2]
  have hVr : (0 : ℝ) < ((covSum x x : ℚ) : ℝ) := by exact_mod_cast hV
  have hsq : ((covSum x x : ℚ) : ℝ) * (((4 * covSum x x : ℚ)) : ℝ) =
      (2 * ((covSum x x : ℚ) : ℝ)) ^ 2 := by
    push_cast
    ring
  rw [hsq, Real.sqrt_sq (by linarith)]
  have hcast : (((2 * covSum x x : ℚ)) : ℝ) = 2 * ((covSum x x : ℚ) : ℝ) := by
    push_cast
    ring
  rw [hcast, div_self (by linarith), clip]
  norm_num

theorem countP_lt_add_eq (x : List ℚ) (v : ℚ) :
    x.countP (fun e => decide (e < v)) + x.countP (fun e => decide (e = v)) =
      x.countP (fun e => decide (e ≤ v)) := by
  induction x with
  | nil => rfl
  | cons p t ih =>
    simp only [List.countP_cons]
    rcases lt_trichotomy p v with h | h | h
    · have h2 : ¬ (p = v) := ne_of_lt h
      have h3 : p ≤ v := h.le
      simp [h, h2, h3]
      omega
    · have h1 : ¬ (p < v) := by rw [h]; exact lt_irrefl v
      have h3 : p ≤ v := le_of_eq h
      simp [h1, h, h3]
      omega
    · have h1 : ¬ (p < v) := asymm h
      have h2 : ¬ (p = v) := ne_of_gt h
      have h3 : ¬ (p ≤ v) := not_le.mpr h
      simp [h1, h2, h3]
      omega

theorem rankOf_lt (x : List ℚ) (a b : ℚ) (ha : a ∈ x) (hb : b ∈ x)
    (hab : a < b) : rankOf x a < rankOf x b := by
  have h1 := countP_lt_add_eq x a
  have h2 : x.countP (fun e => decide (e ≤ a)) ≤
      x.countP (fun e => decide (e < b)) := by
    apply List.countP_mono_left
    intro e _ he
    simp only [decide_eq_true_eq] at he ⊢
    exact lt_of_le_of_lt he hab
  have h3 : 0 < x.countP (fun e => decide (e = a)) :=
    List.countP_pos_iff.mpr ⟨a, ha, by simp⟩
  have h4 : 0 < x.countP (fun e => decide (e = b)) :=
    List.countP_pos_iff.mpr ⟨b, hb, by simp⟩
  rw [rankOf, rankOf]
  have q1 : ((x.countP (fun e => decide (e < a)) : ℚ)) +
      (x.countP (fun e => decide (e = a)) : ℚ) =
      (x.countP (fun e => decide (e ≤ a)) : ℚ) := by exact_mod_cast h1
  have q2 : ((x.countP (fun e => decide (e ≤ a)) : ℚ)) ≤
      (x.countP (fun e => decide (e < b)) : ℚ) := by exact_mod_cast h2
  have q3 : (1 : ℚ) ≤ (x.countP (fun e => decide (e = a)) : ℚ) := by
    exact_mod_cast h3
  have q4 : (1 : ℚ) ≤ (x.countP (fun e => decide (e = b)) : ℚ) := by
    exact_mod_cast h4
  linarith

theorem rankdata_nonconst (x : List ℚ) (a b : ℚ) (ha : a ∈ x) (hb : b ∈ x)
    (hab : a ≠ b) : 0 < covSum (rankdata x) (rankdata x) := by
  rcases hab.lt_or_lt with h | h
  · exact covSum_self_pos (rankdata x) _ _
      (List.mem_map_of_mem (rankOf x) ha) (List.mem_map_of_mem (rankOf x) hb)
      (ne_of_lt (rankOf_lt x a b ha hb h))
  · exact covSum_self_pos (rankdata x) _ _
      (List.mem_map_of_mem (rankOf x) hb) (List.mem_map_of_mem (rankOf x) ha)
      (ne_of_lt (rankOf_lt x b a hb ha h))

theorem rankOf_map_two (x : List ℚ) (v : ℚ) :
    rankOf (x.map (fun a => 2 * a + 1)) (2 * v + 1) = rankOf x v := by
  rw [rankOf, rankOf, List.countP_map, List.countP_map]
  have h1 : ((fun e => decide (e < 2 * v + 1)) ∘ (fun a : ℚ => 2 * a + 1)) =
      (fun e : ℚ => decide (e < v)) := by
    funext e
    simp only [Function.comp_apply, decide_eq_decide]
    constructor <;> intro h <;> linarith
  have h2 : ((fun e => decide (e = 2 * v + 1)) ∘ (fun a : ℚ => 2 * a + 1)) =
      (fun e : ℚ => decide (e = v)) := by
    funext e
    simp only [Function.comp_apply, decide_eq_decide]
    constructor <;> intro h <;> linarith
  rw [h1, h2]

theorem rankdata_map_two (x : List ℚ) :
    rankdata (x.map (fun a => 2 * a + 1)) = rankdata x := by
  rw [rankdata, rankdata, List.map_map]
  exact List.map_congr_left (fun v _ => rankOf_map_two x v)

theorem validPairs_allSome (a : List RV) : ∀ (b : List RV) (xv yv : List ℚ),
    allSome a = some xv → allSome b = some yv → validPairs a b = xv.zip yv := by
  induction a with
  | nil =>
    intro b xv yv hx _
    have hxe : xv = [] := by
      have : (some [] : Option (List ℚ)) = some xv := hx
      exact (Option.some_inj.mp this).symm
    subst hxe
    simp [validPairs]
  | cons p t ih =>
    intro b xv yv hx hy
    cases p with
    | none => exact absurd hx (by simp [allSome])
    | some v =>
      obtain ⟨xt, hxt, rfl⟩ := allSome_cons_some v t xv hx
      cases b with
      | nil =>
        have hye : yv = [] := by
          have : (some [] : Option (List ℚ)) = some yv := hy
          exact (Option.some_inj.mp this).symm
        subst hye
        simp [validPairs]
      | cons q s =>
        cases q with
        | none => exact absurd hy (by simp [allSome])
        | some w =>
          obtain ⟨yt, hyt, rfl⟩ := allSome_cons_some w s yv hy
          have hrec := ih s xt yt hxt hyt
          simp only [validPairs] at hrec
          simp only [validPairs, List.zip_cons_cons, List.filterMap_cons, hrec]

theorem cellAt_eq (T nLat nLon : ℕ) (A B : ℕ → ℕ → ℕ → RV) (i j : ℕ)
    (hi : i < nLat) (hj : j < nLon) :
    cellAt T nLat nLon A B i j =
      cellStat (seriesAt T A i j) (seriesAt T B i j) := by
  simp only [cellAt, corrArr, List.getD_eq_getElem?_getD, List.getElem?_map,
    List.getElem?_range hi, List.getElem?_range hj, Option.map_some',
    Option.getD_some]

/-- C1: per-cell fault isolation of the mapper.  If the rank-correlation
routine fails on a cell's series pair, the loop's record for that cell holds
NaN for both Spearman statistics (the `except` path) and the loop continues —
`cellStat` is total, so no error escapes to the caller.  For a cell whose
series is constant, the Pearson statistics are NaN and the (unguarded)
Pearson call does not raise. -/
theorem C1_cell_fault_isolation (a b : List RV) :
    (spearmanrE a b = Except.error () →
      (cellStat a b).spearman_r = none ∧ (cellStat a b).spearman_p = none) ∧
    ∀ v : ℚ, (∀ u ∈ a, u = some v) →
      (cellStat a b).pearson_r = none ∧ (cellStat a b).pearson_p = none := by
  constructor
  · intro h
    constructor <;> simp [cellStat, h]
  · intro v hv
    have hp : pearsonr a b = (none, none) := by
      cases hb2 : allSome b with
      | none =>
        cases ha2 : allSome a <;> simp [pearsonr, ha2, hb2]
      | some yv =>
        cases ha2 : allSome a with
        | none => simp [pearsonr, ha2, hb2]
        | some xv =>
          have hrep : a = List.replicate a.length (some v) :=
            List.eq_replicate_iff.mpr ⟨rfl, hv⟩
          have hxv : xv = List.replicate a.length v := by
            have h2 : allSome a = some (List.replicate a.length v) := by
              conv_lhs => rw [hrep]
              exact allSome_replicate _ _
            rw [ha2] at h2
            exact Option.some_inj.mp h2
          have hcov : covSum xv xv = 0 := by
            rw [hxv]
            exact covSum_replicate _ _
          simp [pearsonr, ha2, hb2, hcov]
    constructor
    · show (pearsonr a b).1 = none
      rw [hp]
    · show (pearsonr a b).2 = none
      rw [hp]

/-- C1 witness: a concrete constant cell series on which the rank routine
fails (caught, both Spearman stats NaN) and the Pearson stats are NaN. -/
theorem C1_cell_fault_isolation_witness :
    spearmanrE constSeries stepSeries = Except.error () ∧
    (cellStat constSeries stepSeries).spearman_r = none ∧
    (cellStat constSeries stepSeries).pearson_r = none := by
  have ha : allSome constSeries = some [1, 1] := rfl
  have hb : allSome stepSeries = some [0, 1] := rfl
  have hrk : rankdata [(1 : ℚ), 1] = [3 / 2, 3 / 2] := by
    norm_num [rankdata, rankOf, List.countP, List.countP.go]
  have hcov : covSum (rankdata [(1 : ℚ), 1]) (rankdata [(1 : ℚ), 1]) = 0 := by
    rw [hrk]
    norm_num [covSum, mean]
  have hs : spearmanrE constSeries stepSeries = Except.error () := by
    simp only [spearmanrE, ha, hb]
    rw [if_pos (Or.inr (Or.inl hcov))]
  refine ⟨hs, ((C1_cell_fault_isolation constSeries stepSeries).1 hs).1,
    ((C1_cell_fault_isolation constSeries stepSeries).2 1 ?_).1⟩
  intro u hu
  rw [constSeries] at hu
  rcases List.mem_cons.mp hu with rfl | hu'
  · rfl
  · rcases List.mem_cons.mp hu' with rfl | hu''
    · rfl
    · exact absurd hu'' (List.not_mem_nil u)

/-- C3 counterexample: the mapper does no within-cell filtering of missing
pairs — at a cell with one missing observation it records NaN, not the
Pearson statistic of the three valid pairs (which is 1). -/
theorem C3_no_cell_filtering_counterexample :
    (cellStat gapSeries fullSeries).pearson_r = none ∧
    (cellStat ((validPairs gapSeries fullSeries).map (fun p => some p.1))
        ((validPairs gapSeries fullSeries).map (fun p => some p.2))).pearson_r =
      some 1 := by
  constructor
  · show (pearsonr gapSeries fullSeries).1 = none
    have ha : allSome gapSeries = none := rfl
    cases hb : allSome fullSeries <;> simp [pearsonr, ha, hb]
  · have hvp : validPairs gapSeries fullSeries = [(1, 1), (2, 2), (3, 3)] := rfl
    rw [hvp]
    show (pearsonr ([((1 : ℚ), (1 : ℚ)), (2, 2), (3, 3)].map (fun p => some p.1))
      ([((1 : ℚ), (1 : ℚ)), (2, 2), (3, 3)].map (fun p => some p.2))).1 = some 1
    have ha2 : allSome ([((1 : ℚ), (1 : ℚ)), (2, 2), (3, 3)].map
        (fun p => some p.1)) = some [1, 2, 3] := rfl
    have hb2 : allSome ([((1 : ℚ), (1 : ℚ)), (2, 2), (3, 3)].map
        (fun p => some p.2)) = some [1, 2, 3] := rfl
    have hcov : covSum [(1 : ℚ), 2, 3] [(1 : ℚ), 2, 3] = 2 := by
      norm_num [covSum, mean]
    have hpos : 0 < covSum [(1 : ℚ), 2, 3] [(1 : ℚ), 2, 3] := by
      rw [hcov]
      norm_num
    simp only [pearsonr, ha2, hb2]
    rw [if_neg (by rw [hcov]; norm_num)]
    simp only [pearsonStat_self _ hpos]

/-- C3 (amended): the loop passes the full series to the statistics, so a
missing value anywhere in either series makes all four recorded statistics
NaN (no within-cell filtering); only when both series are fully observed do
the "valid pairs" coincide with all pairs, so only then does the record match
the statistics over the filtered pairs. -/
theorem C3_missing_makes_nan (a b : List RV) :
    (none ∈ a ∨ none ∈ b → cellStat a b = ⟨none, none, none, none⟩) ∧
    ∀ xv yv : List ℚ, allSome a = some xv → allSome b = some yv →
      validPairs a b = xv.zip yv := by
  constructor
  · intro h
    have hp : pearsonr a b = (none, none) := by
      rcases h with h | h
      · have ha2 := allSome_of_mem_none a h
        cases hb2 : allSome b <;> simp [pearsonr, ha2, hb2]
      · have hb2 := allSome_of_mem_none b h
        cases ha2 : allSome a <;> simp [pearsonr, ha2, hb2]
    have hs : spearmanrE a b = Except.ok (none, none) := by
      rcases h with h | h
      · have ha2 := allSome_of_mem_none a h
        cases hb2 : allSome b <;> simp [spearmanrE, ha2, hb2]
      · have hb2 := allSome_of_mem_none b h
        cases ha2 : allSome a <;> simp [spearmanrE, ha2, hb2]
    simp [cellStat, hp, hs]
  · intro xv yv hx hy
    exact validPairs_allSome a b xv yv hx hy

/-- C3 witness: a missing value forces the all-NaN record; on fully observed
series the valid pairs are just all the pairs. -/
theorem C3_missing_makes_nan_witness :
    cellStat gapSeries fullSeries = ⟨none, none, none, none⟩ ∧
    validPairs fullSeries fullSeries = [(1, 1), (2, 2), (3, 3), (4, 4)] := by
  constructor
  · exact (C3_missing_makes_nan gapSeries fullSeries).1
      (Or.inl (by rw [gapSeries]; simp))
  · have h := (C3_missing_makes_nan fullSeries fullSeries).2 [1, 2, 3, 4]
      [1, 2, 3, 4] rfl rfl
    rw [h]
    rfl

/-- C8: at a cell with `B = 2*A + 1` (perfectly linearly related, and
non-constant), the mapper records `pearson_r = 1` and `spearman_r = 1`; for
the decreasing five-step scenario `A = [1,2,3,4,5]`, `B = [5,4,3,2,1]` it
records `pearson_r = -1`, `spearman_r = -1` and both p-values exactly `0`. -/
theorem C8_perfect_linear_correlation :
    (∀ A : List ℚ, 2 ≤ A.length → (∃ a ∈ A, ∃ b ∈ A, a ≠ b) →
      (cellStat (A.map some)
        ((A.map (fun a => 2 * a + 1)).map some)).pearson_r = some 1 ∧
      (cellStat (A.map some)
        ((A.map (fun a => 2 * a + 1)).map some)).spearman_r = some 1) ∧
    cellStat (incList.map some) (decList.map some) =
      ⟨some (-1), some 0, some (-1), some 0⟩ := by
  constructor
  · rintro A hlen ⟨a, ha, b, hb, hab⟩
    have hx : A ≠ [] := List.ne_nil_of_mem ha
    have hV : 0 < covSum A A := covSum_self_pos A a b ha hb hab
    obtain ⟨hc1, hc2⟩ := covSum_map_two A hx
    have hVr := rankdata_nonconst A a b ha hb hab
    have hVrB : 0 < covSum (rankdata (A.map (fun a => 2 * a + 1)))
        (rankdata (A.map (fun a => 2 * a + 1))) := by
      rw [rankdata_map_two]
      exact hVr
    have hprod : ¬ (covSum A A * covSum (A.map (fun a => 2 * a + 1))
        (A.map (fun a => 2 * a + 1)) = 0) := by
      rw [hc2]
      have := hV
      positivity
    constructor
    · show (pearsonr (A.map some) ((A.map (fun a => 2 * a + 1)).map some)).1 =
        some 1
      simp only [pearsonr, allSome_map_some]
      rw [if_neg hprod]
      simp only [pearsonStat_map_two A hx hV]
    · have hcond : ¬ ((A.map some).length < 2 ∨
          covSum (rankdata A) (rankdata A) = 0 ∨
          covSum (rankdata (A.map (fun a => 2 * a + 1)))
            (rankdata (A.map (fun a => 2 * a + 1))) = 0) := by
        push_neg
        refine ⟨?_, hVr.ne', hVrB.ne'⟩
        rw [List.length_map]
        omega
      have hsp : spearmanrE (A.map some) ((A.map (fun a => 2 * a + 1)).map some)
          = Except.ok (some (spearmanStat A (A.map (fun a => 2 * a + 1))),
            some (spearmanProb (A.map some).length
              (spearmanStat A (A.map (fun a => 2 * a + 1))))) := by
        simp only [spearmanrE, allSome_map_some]
        rw [if_neg hcond]
      have hval : spearmanStat A (A.map (fun a => 2 * a + 1)) = 1 := by
        rw [spearmanStat, rankdata_map_two]
        exact pearsonStat_self _ hVr
      simp only [cellStat, hsp, hval]

  · have hc1 : covSum incList decList = -10 := by
      norm_num [covSum, mean, incList, decList]
    have hc2 : covSum incList incList = 10 := by
      norm_num [covSum, mean, incList]
    have hc3 : covSum decList decList = 10 := by
      norm_num [covSum, mean, decList]
    have hr1 : rankdata incList = incList := by
      norm_num [rankdata, rankOf, incList, List.countP, List.countP.go]
    have hr2 : rankdata decList = decList := by
      norm_num [rankdata, rankOf, decList, List.countP, List.countP.go]
    have hps : pearsonStat incList decList = -1 := by
      rw [pearsonStat, hc1, hc2, hc3]
      have hs10 : Real.sqrt (((10 : ℚ) : ℝ) * ((10 : ℚ) : ℝ)) = 10 := by
        have : (((10 : ℚ) : ℝ)) = (10 : ℝ) := by norm_num
        rw [this]
        exact Real.sqrt_mul_self (by norm_num)
      rw [hs10]
      norm_num [clip]
    have hsps : spearmanStat incList decList = -1 := by
      rw [spearmanStat, hr1, hr2, hps]
    have hprob : pearsonProb (incList.map some).length (-1) = 0 := by
      rw [pearsonProb]
      norm_num
    have hsprob : spearmanProb (incList.map some).length (-1) = 0 := by
      rw [spearmanProb]
      norm_num
    have hp : pearsonr (incList.map some) (decList.map some) =
        (some (-1), some 0) := by
      simp only [pearsonr, allSome_map_some]
      rw [if_neg (by rw [hc2, hc3]; norm_num)]
      rw [hps, hprob]

    have hcond : ¬ ((incList.map some).length < 2 ∨
        covSum (rankdata incList) (rankdata incList) = 0 ∨
        covSum (rankdata decList) (rankdata decList) = 0) := by
      push_neg
      refine ⟨by norm_num [incList], ?_, ?_⟩
      · rw [hr1, hc2]; norm_num
      · rw [hr2, hc3]; norm_num
    have hsp : spearmanrE (incList.map some) (decList.map some) =
        Except.ok (some (-1), some 0) := by
      simp only [spearmanrE, allSome_map_some]
      rw [if_neg hcond]
      rw [hsps, hsprob]

    simp [cellStat, hp, hsp]

/-- C8 witness: the linear-relation statement at the concrete non-constant
series `A = [0, 1]`. -/
theorem C8_perfect_linear_correlation_witness :
    (cellStat ([(0 : ℚ), 1].map some)
      (([(0 : ℚ), 1].map (fun a => 2 * a + 1)).map some)).pearson_r = some 1 ∧
    (cellStat ([(0 : ℚ), 1].map some)
      (([(0 : ℚ), 1].map (fun a => 2 * a + 1)).map some)).spearman_r = some 1 :=
  C8_perfect_linear_correlation.1 [0, 1] (by norm_num)
    ⟨0, by simp, 1, by simp, by norm_num⟩

/-- C9: the four statistics written at a cell depend only on the two input
series at that cell — two runs whose inputs agree there produce the same
record at that cell, whatever the allocation contents, and each loop
iteration writes only its own cell (the record at `(i, j)` is a function of
the `(i, j)` series alone). -/
theorem C9_cell_local_dependence (T nLat nLon : ℕ) (A A2 B B2 : ℕ → ℕ → ℕ → RV)
    (i j : ℕ) (hi : i < nLat) (hj : j < nLon)
    (hA : seriesAt T A i j = seriesAt T A2 i j)
    (hB : seriesAt T B i j = seriesAt T B2 i j) (ds ds2 : CorrDS) :
    (corrAssign T nLat nLon A B ds).pearson_r i j =
      (corrAssign T nLat nLon A2 B2 ds2).pearson_r i j ∧
    (corrAssign T nLat nLon A B ds).pearson_p i j =
      (corrAssign T nLat nLon A2 B2 ds2).pearson_p i j ∧
    (corrAssign T nLat nLon A B ds).spearman_r i j =
      (corrAssign T nLat nLon A2 B2 ds2).spearman_r i j ∧
    (corrAssign T nLat nLon A B ds).spearman_p i j =
      (corrAssign T nLat nLon A2 B2 ds2).spearman_p i j := by
  have hc : cellAt T nLat nLon A B i j = cellAt T nLat nLon A2 B2 i j := by
    rw [cellAt_eq T nLat nLon A B i j hi hj,
      cellAt_eq T nLat nLon A2 B2 i j hi hj, hA, hB]
  refine ⟨?_, ?_, ?_, ?_⟩ <;> simp [corrAssign, hi, hj, hc]

/-- C9 witness: two runs with different allocations and arrays agreeing at
cell (0, 0) produce the same record there. -/
theorem C9_cell_local_dependence_witness :
    (corrAssign 1 1 1 refW refW (corrAlloc (fun _ _ => some 0)
      (fun _ _ => some 0) (fun _ _ => some 0) (fun _ _ => some 0))).pearson_r
        0 0 =
    (corrAssign 1 1 1 altA refW (corrAlloc (fun _ _ => none) (fun _ _ => none)
      (fun _ _ => none) (fun _ _ => none))).pearson_r 0 0 :=
  (C9_cell_local_dependence 1 1 1 refW altA refW refW 0 0 (by norm_num)
    (by norm_num) rfl rfl _ _).1

/-- C10: after the four assignments, every in-range cell of each of the four
fields of the `corr` dataset holds the loop's computed statistic for that
cell — independent of the arbitrary contents of the uninitialised allocation
buffers, so no uninitialised value remains in the statistic grid. -/
theorem C10_all_cells_written (T nLat nLon : ℕ) (A B : ℕ → ℕ → ℕ → RV)
    (f1 f2 f3 f4 : ℕ → ℕ → Option ℝ) (i j : ℕ) (hi : i < nLat)
    (hj : j < nLon) :
    (corrAssign T nLat nLon A B (corrAlloc f1 f2 f3 f4)).pearson_r i j =
      (cellStat (seriesAt T A i j) (seriesAt T B i j)).pearson_r ∧
    (corrAssign T nLat nLon A B (corrAlloc f1 f2 f3 f4)).pearson_p i j =
      (cellStat (seriesAt T A i j) (seriesAt T B i j)).pearson_p ∧
    (corrAssign T nLat nLon A B (corrAlloc f1 f2 f3 f4)).spearman_r i j =
      (cellStat (seriesAt T A i j) (seriesAt T B i j)).spearman_r ∧
    (corrAssign T nLat nLon A B (corrAlloc f1 f2 f3 f4)).spearman_p i j =
      (cellStat (seriesAt T A i j) (seriesAt T B i j)).spearman_p := by
  refine ⟨?_, ?_, ?_, ?_⟩ <;>
    simp [corrAssign, corrAlloc, hi, hj, cellAt_eq T nLat nLon A B i j hi hj]

/-- C10 witness: the written-everywhere theorem at a concrete allocation and
concrete arrays. -/
theorem C10_all_cells_written_witness :
    (corrAssign 1 1 1 refW refW (corrAlloc (fun _ _ => some 7)
      (fun _ _ => some 7) (fun _ _ => some 7) (fun _ _ => some 7))).pearson_r
        0 0 =
      (cellStat (seriesAt 1 refW 0 0) (seriesAt 1 refW 0 0)).pearson_r :=
  (C10_all_cells_written 1 1 1 refW refW _ _ _ _ 0 0 (by norm_num)
    (by norm_num)).1

end RSW
